import Mathlib

/-!
Verification of the STV counting engine in `stv.py` (skyem123/simple-stv).

The Python module is shallowly embedded: Python floats become `ℚ`,
dictionaries become total functions (with explicit `Except` errors at the
points where Python would raise `KeyError`, `ZeroDivisionError`,
`IndexError`, `ValueError` or call `sys.exit`), and the two `while` loops of
`count_stv` become fuel-indexed recursions (each main-loop round removes
exactly one hopeful and each zombie iteration removes one eliminated
candidate, so the fuel supplied by `count_stv` is always sufficient).
Ballot objects carry their candidate list, the current-preference index and
the cumulative value; the class-level `weights` list of the Python `Ballot`
class is modelled separately (see `BallotClassState` below) because it is
shared between instances and never read by the counting algorithm.
-/

namespace STV

/-- Runtime failures of the Python code: `IndexError` from `sequence[0]` or
`ballot.candidates[0]`, `KeyError` from `constituencies[candidate]`,
`ZeroDivisionError` from `surplus / vote_count[best]`, `sys.exit(1)` on an
exhausted deterministic tie-break list, `sys.exit(1)` on a best candidate
that is not hopeful, and `ValueError` from `hopefuls.remove`. -/
inductive Err where
  | indexError
  | keyError
  | zeroDivision
  | tieBreakExhausted
  | invalidCandidate
  | removeError
deriving DecidableEq, Repr

/-- The algorithm-relevant state of a `Ballot` object: the ordered candidate
list (never mutated), the current-preference index (`current_preference`,
class default 0, written per instance), and the cumulative value (`_value`,
class default 1.0, written per instance). The shared class-level `weights`
list is not carried here because the counting algorithm never reads it. -/
structure MBallot where
  candidates : List String
  pref : Nat
  value : ℚ
deriving DecidableEq, Repr

/-- Pointwise update of a vote-count map (`vote_count[k] = x`). -/
def updF (f : String → ℚ) (k : String) (x : ℚ) : String → ℚ :=
  fun c => if c = k then x else f c

/-- Pointwise update of an allocation map (`allocated[k] = x`). -/
def updA (f : String → List MBallot) (k : String) (x : List MBallot) :
    String → List MBallot :=
  fun c => if c = k then x else f c

/-- The inner `while` of `redistribute_ballots`: scan `l` (the candidate
list from position `i` on), returning the absolute index of the first
candidate present in `hopefuls`. -/
def scanAux (hopefuls : List String) : List String → Nat → Option Nat
  | [], _ => none
  | c :: cs, i => if c ∈ hopefuls then some i else scanAux hopefuls cs (i + 1)

/-- Index of the first candidate of `cands` at position `start` or later
that is in `hopefuls` (the scan of `redistribute_ballots` starts at
`ballot.current_preference + 1`). -/
def scanPref (hopefuls cands : List String) (start : Nat) : Option Nat :=
  scanAux hopefuls (cands.drop start) start

/-- Stable insertion, descending by `key`: `x` goes before the first element
with a strictly smaller key, hence after all earlier elements with an equal
key, reproducing Python's stable `sorted(..., reverse=True)`. -/
def insertDesc (key : String → ℚ) (x : String) : List String → List String
  | [] => [x]
  | y :: ys => if key x < key y then y :: insertDesc key x ys else x :: y :: ys

/-- Stable sort, descending by `key`, modelling
`sorted(hopefuls, key=vote_count.get, reverse=True)`. -/
def sortDesc (key : String → ℚ) : List String → List String
  | [] => []
  | x :: xs => insertDesc key x (sortDesc key xs)

/-- `randomly_select_first`: collect the leading run of elements whose key
equals the first element's key; with one element return it (no randomness,
queue untouched); with several and no deterministic queue pick by the random
index `randIdx`; with a queue pop its head (the popped value is the chosen
candidate), failing fatally if the queue is empty. Returns the selection and
the remaining queue. -/
def randomly_select_first (sequence : List String) (key : String → ℚ)
    (rnd_gen : Option (List String)) (randIdx : Nat) :
    Except Err (String × Option (List String)) :=
  match sequence with
  | [] => .error .indexError
  | s0 :: _ =>
    let collected := sequence.takeWhile (fun c => decide (key c = key s0))
    if collected.length > 1 then
      match rnd_gen with
      | none => .ok (collected.getD (randIdx % collected.length) "", none)
      | some [] => .error .tieBreakExhausted
      | some (x :: rest) => .ok (x, some rest)
    else .ok (s0, rnd_gen)

/-- Python dict lookup on the candidate-to-constituency mapping. -/
def lookupC (m : List (String × Nat)) (c : String) : Option Nat :=
  match m with
  | [] => none
  | (k, v) :: rest => if c = k then some v else lookupC rest c

/-- The quota check of `elect_reject`: true when a quota limit is set, the
candidate is in the constituency mapping, and its constituency's elected
count has reached the limit. -/
def quotaExceeded (candidate : String) (constituencies : List (String × Nat))
    (quota_limit : Nat) (constituencies_elected : Nat → Nat) : Bool :=
  if quota_limit > 0 then
    match lookupC constituencies candidate with
    | some cc => decide (constituencies_elected cc ≥ quota_limit)
    | none => false
  else false

/-- `elect_reject`: with a positive quota limit and a tracked candidate whose
constituency is full, reject (append to `rejected`, return false); otherwise
elect (append to `elected`; with a nonempty constituency mapping, increment
the candidate's constituency counter — raising `KeyError` when the candidate
is absent from the mapping). Returns
(was_elected, elected, rejected, constituencies_elected). -/
def elect_reject (candidate : String) (vote_count : String → ℚ)
    (constituencies : List (String × Nat)) (quota_limit : Nat)
    (current_round : Nat) (elected rejected : List (String × Nat × ℚ))
    (constituencies_elected : Nat → Nat) :
    Except Err (Bool × List (String × Nat × ℚ) × List (String × Nat × ℚ) × (Nat → Nat)) :=
  if quotaExceeded candidate constituencies quota_limit constituencies_elected then
    .ok (false, elected,
      rejected ++ [(candidate, current_round, vote_count candidate)],
      constituencies_elected)
  else
    match constituencies with
    | [] =>
      .ok (true, elected ++ [(candidate, current_round, vote_count candidate)],
        rejected, constituencies_elected)
    | _ :: _ =>
      match lookupC constituencies candidate with
      | none => .error .keyError
      | some cc =>
        .ok (true, elected ++ [(candidate, current_round, vote_count candidate)],
          rejected,
          fun g => if g = cc then constituencies_elected cc + 1
                   else constituencies_elected g)

/-- One ballot of the `for ballot in allocated[selected]` loop of
`redistribute_ballots`: find the first hopeful preference strictly after the
current one; if found, update the ballot (new preference index, value scaled
by `weight`), append it to the recipient's bucket, add its new value to the
recipient's count and subtract it from `selected`'s count; otherwise keep the
ballot in the untransferred remainder. -/
def redistStep (selected : String) (weight : ℚ) (hopefuls : List String)
    (acc : (String → List MBallot) × (String → ℚ) × List MBallot)
    (b : MBallot) :
    (String → List MBallot) × (String → ℚ) × List MBallot :=
  match scanPref hopefuls b.candidates (b.pref + 1) with
  | some i =>
    let b' : MBallot := ⟨b.candidates, i, b.value * weight⟩
    let recipient := b.candidates.getD i ""
    let al' := updA acc.1 recipient (acc.1 recipient ++ [b'])
    let vc' := updF acc.2.1 recipient (acc.2.1 recipient + b'.value)
    let vc'' := updF vc' selected (vc' selected - b'.value)
    (al', vc'', acc.2.2)
  | none => (acc.1, acc.2.1, acc.2.2 ++ [b])

/-- `redistribute_ballots(selected, weight, hopefuls, allocated, vote_count)`:
process every ballot currently allocated to `selected`, then replace
`selected`'s bucket by the untransferred remainder (Python filters the
transferred ballots out at the end). -/
def redistribute_ballots (selected : String) (weight : ℚ)
    (hopefuls : List String) (allocated : String → List MBallot)
    (vote_count : String → ℚ) :
    (String → List MBallot) × (String → ℚ) :=
  let res := (allocated selected).foldl (redistStep selected weight hopefuls)
    (allocated, vote_count, [])
  (updA res.1 selected res.2.2, res.2.1)

/-- The transfer destination index of a ballot: the position of the first
candidate of its preference list strictly after the current-preference index
that is hopeful. -/
def transferIdx (hopefuls : List String) (b : MBallot) : Option Nat :=
  scanPref hopefuls b.candidates (b.pref + 1)

/-- A ballot after a transfer to the preference at index `i` under `weight`:
the preference index becomes `i` and the value is scaled. -/
def movedBallot (weight : ℚ) (b : MBallot) (i : Nat) : MBallot :=
  ⟨b.candidates, i, b.value * weight⟩

/-- The updated ballot candidate `c` receives from `b` during a
redistribution, if any. -/
def incomingTo (hopefuls : List String) (weight : ℚ) (c : String)
    (b : MBallot) : Option MBallot :=
  match transferIdx hopefuls b with
  | some i => if b.candidates.getD i "" = c then some (movedBallot weight b i)
              else none
  | none => none

/-- The vote mass ballot `b` takes away from the redistributed candidate. -/
def outgoingVal (hopefuls : List String) (weight : ℚ) (b : MBallot) : ℚ :=
  match transferIdx hopefuls b with
  | some _ => b.value * weight
  | none => 0

/-- The vote mass candidate `c` receives from ballot `b` during a
redistribution. -/
def incomingVal (hopefuls : List String) (weight : ℚ) (c : String)
    (b : MBallot) : ℚ :=
  match transferIdx hopefuls b with
  | some i => if b.candidates.getD i "" = c then b.value * weight else 0
  | none => 0

/-- The per-invocation constants of `count_stv`. -/
structure Ctx where
  seats : Nat
  threshold : ℚ
  fractional : Bool
  constituencies : List (String × Nat)
  quota_limit : Nat
  randFn : Nat → Nat

/-- The mutable state of `count_stv` at a round boundary. -/
structure LoopState where
  allocated : String → List MBallot
  vote_count : String → ℚ
  candidates : List String
  elected : List (String × Nat × ℚ)
  hopefuls : List String
  eliminated : List String
  rejected : List (String × Nat × ℚ)
  constituencies_elected : Nat → Nat
  current_round : Nat
  rnd_gen : Option (List String)
  randCtr : Nat

/-- The election-path guard of `count_stv`:
`fractional and surplus > 0 or not fractional and surplus >= 0 or
num_hopefuls <= seats - num_elected` (Python `and` binds tighter than
`or`; the subtraction is over ℤ as in Python). -/
def electionCondB (ctx : Ctx) (s : LoopState) (surplus : ℚ) : Bool :=
  (ctx.fractional && decide (surplus > 0)) ||
    (!ctx.fractional && decide (surplus ≥ 0)) ||
    decide ((s.hopefuls.length : ℤ) ≤ (ctx.seats : ℤ) - (s.elected.length : ℤ))

/-- The state at the end of an election-path round: `best` was removed from
the hopefuls, the decision lists were replaced by the decider's outputs, the
allocation and vote counts by the redistribution results, and the round
counter advanced. -/
def electionResult (s : LoopState) (best : String)
    (rnd' : Option (List String)) (elected' rejected' : List (String × Nat × ℚ))
    (ce' : Nat → Nat) (p : (String → List MBallot) × (String → ℚ)) :
    LoopState :=
  { s with
    allocated := p.1, vote_count := p.2, hopefuls := s.hopefuls.erase best,
    elected := elected', rejected := rejected', constituencies_elected := ce',
    current_round := s.current_round + 1, rnd_gen := rnd',
    randCtr := s.randCtr + 1 }

/-- The allocation and vote counts after the election decision but before any
surplus transfer: unchanged on election, redistributed at weight 1.0 (to the
remaining hopefuls) on rejection. -/
def electionP1 (s : LoopState) (best : String) (was_elected : Bool) :
    (String → List MBallot) × (String → ℚ) :=
  if was_elected then (s.allocated, s.vote_count)
  else redistribute_ballots best 1 (s.hopefuls.erase best) s.allocated
    s.vote_count

/-- The tail of the election path after the decider ran: when `surplus > 0`,
divide by `vote_count[best]` as it stands after the possible rejection
redistribution (`ZeroDivisionError` when that count is 0) and redistribute at
that weight. -/
def electionFinish (s : LoopState) (best : String)
    (rnd' : Option (List String)) (surplus : ℚ)
    (elected' rejected' : List (String × Nat × ℚ)) (ce' : Nat → Nat)
    (was_elected : Bool) : Except Err LoopState :=
  if surplus > 0 then
    if (electionP1 s best was_elected).2 best = 0 then .error .zeroDivision
    else
      .ok (electionResult s best rnd' elected' rejected' ce'
        (redistribute_ballots best
          (surplus / (electionP1 s best was_elected).2 best)
          (s.hopefuls.erase best) (electionP1 s best was_elected).1
          (electionP1 s best was_elected).2))
  else .ok (electionResult s best rnd' elected' rejected' ce'
    (electionP1 s best was_elected))

/-- The election path of a round: select the best candidate from the
descending-sorted hopefuls, abort if it is not hopeful, remove it, decide
election/rejection, redistribute at weight 1.0 on rejection, and when
`surplus > 0` redistribute at `surplus / vote_count[best]` (a
`ZeroDivisionError` when that count is 0). -/
def electionStep (ctx : Ctx) (s : LoopState) (sorted : List String)
    (surplus : ℚ) : Except Err LoopState :=
  match randomly_select_first sorted s.vote_count s.rnd_gen (ctx.randFn s.randCtr) with
  | .error e => .error e
  | .ok (best, rnd') =>
    if best ∈ s.hopefuls then
      match elect_reject best s.vote_count ctx.constituencies ctx.quota_limit
          s.current_round s.elected s.rejected s.constituencies_elected with
      | .error e => .error e
      | .ok (was_elected, elected', rejected', ce') =>
        electionFinish s best rnd' surplus elected' rejected' ce' was_elected
    else .error .invalidCandidate

/-- The state at the end of an elimination-path round: `worst` was removed
from the hopefuls and appended to the eliminated list, its ballots
redistributed, and the round counter advanced. -/
def eliminationResult (s : LoopState) (worst : String)
    (rnd' : Option (List String))
    (p : (String → List MBallot) × (String → ℚ)) : LoopState :=
  { s with
    allocated := p.1, vote_count := p.2, hopefuls := s.hopefuls.erase worst,
    eliminated := s.eliminated ++ [worst],
    current_round := s.current_round + 1, rnd_gen := rnd',
    randCtr := s.randCtr + 1 }

/-- The elimination path of a round: reverse the descending-sorted hopefuls,
select the worst, remove it (`ValueError` if absent), append it to
`eliminated`, and redistribute its ballots at weight 1.0. -/
def eliminationStep (ctx : Ctx) (s : LoopState) (sorted : List String) :
    Except Err LoopState :=
  match randomly_select_first sorted.reverse s.vote_count s.rnd_gen
      (ctx.randFn s.randCtr) with
  | .error e => .error e
  | .ok (worst, rnd') =>
    if worst ∈ s.hopefuls then
      .ok (eliminationResult s worst rnd'
        (redistribute_ballots worst 1 (s.hopefuls.erase worst) s.allocated
          s.vote_count))
    else .error .removeError

/-- One round of the main `while` loop of `count_stv` (a no-op when no
hopefuls remain, matching the loop guard). -/
def stvRound (ctx : Ctx) (s : LoopState) : Except Err LoopState :=
  match s.hopefuls with
  | [] => .ok s
  | _ :: _ =>
    let sorted := sortDesc s.vote_count s.hopefuls
    let surplus := s.vote_count (sorted.headD "") - ctx.threshold
    if electionCondB ctx s surplus then electionStep ctx s sorted surplus
    else eliminationStep ctx s sorted

/-- The main round loop: run rounds while seats are unfilled and hopefuls
remain (each successful round removes exactly one hopeful, so fuel equal to
the number of hopefuls always suffices). -/
def stvLoop (ctx : Ctx) : Nat → LoopState → Except Err LoopState
  | 0, s => .ok s
  | fuel + 1, s =>
    if s.elected.length < ctx.seats ∧ s.hopefuls ≠ [] then
      match stvRound ctx s with
      | .error e => .error e
      | .ok s' => stvLoop ctx fuel s'
    else .ok s

/-- The zombie loop of `count_stv`: while `(seats - num_elected) > 0` and the
eliminated list is nonempty, pop the most recently eliminated candidate and
run it through `elect_reject` at its frozen count. `num_elected` is the value
cached at the end of the main loop and is never updated inside this loop,
exactly as in the source. -/
def zombieLoop (ctx : Ctx) : Nat → Nat → LoopState → Except Err LoopState
  | 0, _, s => .ok s
  | fuel + 1, num_elected, s =>
    if (ctx.seats : ℤ) - (num_elected : ℤ) > 0 ∧ s.eliminated ≠ [] then
      match s.eliminated.getLast? with
      | none => .ok s
      | some best =>
        match elect_reject best s.vote_count ctx.constituencies ctx.quota_limit
            s.current_round s.elected s.rejected s.constituencies_elected with
        | .error e => .error e
        | .ok (_, elected', rejected', ce') =>
          zombieLoop ctx fuel num_elected
            { s with
              eliminated := s.eliminated.dropLast, elected := elected',
              rejected := rejected', constituencies_elected := ce',
              current_round := s.current_round + 1 }
    else .ok s

/-- Append a candidate to the candidate list if not already present
(`if candidate not in candidates: candidates.append(candidate)`). -/
def addCandidate (acc : List String) (c : String) : List String :=
  if c ∈ acc then acc else acc ++ [c]

/-- The candidates registered while initializing `constituencies_elected`. -/
def initConstituencyCands (constituencies : List (String × Nat)) : List String :=
  constituencies.foldl (fun acc p => addCandidate acc p.1) []

/-- The initial count: allocate each ballot to its first preference
(`IndexError` on an empty candidate list), registering every candidate named
on any ballot, and add 1 to the first preference's vote count. -/
def initCount :
    List MBallot → List String × (String → List MBallot) × (String → ℚ) →
    Except Err (List String × (String → List MBallot) × (String → ℚ))
  | [], acc => .ok acc
  | b :: bs, (cands, al, vc) =>
    match b.candidates with
    | [] => .error .indexError
    | sel :: _ =>
      initCount bs (b.candidates.foldl addCandidate cands,
        updA al sel (al sel ++ [b]), updF vc sel (vc sel + 1))

/-- State of `count_stv` just before the first round: candidates from the
constituency mapping first, then from the ballots; every candidate hopeful;
round counter 1. -/
def initState (ballots : List MBallot) (constituencies : List (String × Nat))
    (rnd_gen : Option (List String)) : Except Err LoopState :=
  match initCount ballots (initConstituencyCands constituencies,
      fun _ => [], fun _ => 0) with
  | .error e => .error e
  | .ok (cands, al, vc) =>
    .ok { allocated := al, vote_count := vc, candidates := cands,
          elected := [], hopefuls := cands, eliminated := [], rejected := [],
          constituencies_elected := fun _ => 0, current_round := 1,
          rnd_gen := rnd_gen, randCtr := 0 }

/-- Python `int()` on a rational value: truncation toward zero. -/
def pyInt (q : ℚ) : ℤ := if 0 ≤ q then ⌊q⌋ else ⌈q⌉

/-- The threshold of `count_stv`: `int(1 + B/(S+1.0))` for droop,
`B/(S+1.0)` for fractional droop, `int(math.ceil(1 + B/(S+1.0)))` otherwise. -/
def computeThreshold (numBallots seats : Nat) (droop fractional : Bool) : ℚ :=
  if droop then
    if !fractional then
      ((pyInt (1 + (numBallots : ℚ) / ((seats : ℚ) + 1)) : ℤ) : ℚ)
    else (numBallots : ℚ) / ((seats : ℚ) + 1)
  else ((⌈1 + (numBallots : ℚ) / ((seats : ℚ) + 1)⌉ : ℤ) : ℚ)

/-- `count_stv`: threshold, initial count, main round loop, zombie loop;
returns the elected list and the final vote-count snapshot. -/
def count_stv (ballots : List MBallot) (seats : Nat) (droop : Bool)
    (constituencies : List (String × Nat)) (quota_limit : Nat)
    (rnd_gen : Option (List String)) (fractional : Bool) (randFn : Nat → Nat) :
    Except Err (List (String × Nat × ℚ) × (String → ℚ)) :=
  let ctx : Ctx := ⟨seats, computeThreshold ballots.length seats droop fractional,
    fractional, constituencies, quota_limit, randFn⟩
  match initState ballots constituencies rnd_gen with
  | .error e => .error e
  | .ok s0 =>
    match stvLoop ctx (s0.hopefuls.length + 1) s0 with
    | .error e => .error e
    | .ok s1 =>
      match zombieLoop ctx (s1.eliminated.length + 1) s1.elected.length s1 with
      | .error e => .error e
      | .ok s2 => .ok (s2.elected, s2.vote_count)

/-- Iterated rounds, for stating properties of every reachable round
boundary. -/
def iterateRounds (ctx : Ctx) : Nat → LoopState → Except Err LoopState
  | 0, s => .ok s
  | n + 1, s =>
    match stvRound ctx s with
    | .error e => .error e
    | .ok s' => iterateRounds ctx n s'

/-- The total vote mass: the sum of the vote counts of all registered
candidates (frozen values included). -/
def totalVotes (s : LoopState) : ℚ := (s.candidates.map s.vote_count).sum

/-- Names of the elected candidates of a successful run. -/
def okElectedNames (r : Except Err (List (String × Nat × ℚ) × (String → ℚ))) :
    Option (List String) :=
  match r with
  | .ok p => some (p.1.map (fun e => e.1))
  | .error _ => none

/-- Number of elected candidates of a successful run. -/
def okElectedLength (r : Except Err (List (String × Nat × ℚ) × (String → ℚ))) :
    Option Nat :=
  match r with
  | .ok p => some p.1.length
  | .error _ => none

/-- The error of a failed run. -/
def runError (r : Except Err (List (String × Nat × ℚ) × (String → ℚ))) :
    Option Err :=
  match r with
  | .ok _ => none
  | .error e => some e

/-! Model of Python attribute semantics for the `Ballot` class, needed to
settle the claim about per-ballot weight stacks. The class body declares
`weights = [1.0]` as a class attribute; `add_weight` executes
`self.weights.insert(0, weight)`, which looks the attribute up (instance
first, then class) and mutates the list object found there, and
`self._value *= weight`, which reads the attribute and writes an instance
attribute. `__init__` only assigns `self.candidates`. -/

/-- An instance of the Python `Ballot` class: the per-instance attribute
slots (`none` = not set on the instance, reads fall through to the class). -/
structure PyBallot where
  candidates : List String
  inst_weights : Option (List ℚ)
  inst_pref : Option Nat
  inst_value : Option ℚ
deriving DecidableEq, Repr

/-- The mutable class-level state of `Ballot`: the list object bound to the
class attribute `weights` (initially `[1.0]`). -/
structure BallotClassState where
  cls_weights : List ℚ
deriving DecidableEq, Repr

/-- `Ballot.__init__`: only `self.candidates` is assigned. -/
def mkBallot (candidates : List String) : PyBallot :=
  ⟨candidates, none, none, none⟩

/-- The class state at interpreter start: `weights = [1.0]`. -/
def initialBallotClass : BallotClassState := ⟨[1]⟩

/-- The weight history observed on a ballot: its instance attribute if set,
else the shared class list. -/
def weightsOf (st : BallotClassState) (b : PyBallot) : List ℚ :=
  b.inst_weights.getD st.cls_weights

/-- `get_value`: the instance `_value` if set, else the class default 1.0. -/
def valueOf (b : PyBallot) : ℚ := b.inst_value.getD 1

/-- `add_weight(weight)`: `self.weights.insert(0, weight)` mutates the list
object the attribute resolves to — the shared class list when the instance
has no `weights` slot of its own (which this code never creates) — and
`self._value *= weight` writes the instance `_value` slot. -/
def add_weight (st : BallotClassState) (b : PyBallot) (weight : ℚ) :
    BallotClassState × PyBallot :=
  let st' :=
    match b.inst_weights with
    | none => { st with cls_weights := weight :: st.cls_weights }
    | some _ => st
  let b' := { b with
    inst_weights := b.inst_weights.map (fun l => weight :: l),
    inst_value := some (valueOf b * weight) }
  (st', b')

/-! Concrete inputs used to exercise the code at specific points. -/

/-- A unit ballot as constructed by the CSV/JSON readers: preference index 0,
value 1.0. -/
def unitBallot (candidates : List String) : MBallot := ⟨candidates, 0, 1⟩

/-- Ballots exhibiting the zombie-loop seat overrun: 10 ballots for A, 9 for
B, 3 for C, 2 for Y, 1 for Z (25 ballots, droop threshold 9 at 2 seats). -/
def zombieBallots : List MBallot :=
  List.replicate 10 (unitBallot ["A"]) ++ List.replicate 9 (unitBallot ["B"]) ++
    List.replicate 3 (unitBallot ["C"]) ++ List.replicate 2 (unitBallot ["Y"]) ++
    List.replicate 1 (unitBallot ["Z"])

/-- Constituencies for the zombie-loop run: A, B, C share constituency 0;
Y and Z are alone in constituencies 1 and 2. -/
def zombieConstituencies : List (String × Nat) :=
  [("A", 0), ("B", 0), ("C", 0), ("Y", 1), ("Z", 2)]

/-- The zombie-loop run: 2 seats, droop, constituency quota 1, no
deterministic tie-break queue. -/
def zombieRun : Except Err (List (String × Nat × ℚ) × (String → ℚ)) :=
  count_stv zombieBallots 2 true zombieConstituencies 1 none false (fun _ => 0)

/-- Ballots exhibiting the division by zero: 8 ballots for A, 7 for B with
second preference C, 1 for C (16 ballots, droop threshold 6 at 2 seats). -/
def zeroDivBallots : List MBallot :=
  List.replicate 8 (unitBallot ["A"]) ++
    List.replicate 7 (unitBallot ["B", "C"]) ++
    List.replicate 1 (unitBallot ["C"])

/-- Constituencies for the division-by-zero run: A and B share constituency
0, C is alone in constituency 1. -/
def zeroDivConstituencies : List (String × Nat) :=
  [("A", 0), ("B", 0), ("C", 1)]

/-- The division-by-zero run: 2 seats, droop, constituency quota 1. -/
def zeroDivRun : Except Err (List (String × Nat × ℚ) × (String → ℚ)) :=
  count_stv zeroDivBallots 2 true zeroDivConstituencies 1 none false (fun _ => 0)

/-- A state with every container empty, used as the default of `getOk`. -/
def emptyLoopState : LoopState :=
  { allocated := fun _ => [], vote_count := fun _ => 0, candidates := [],
    elected := [], hopefuls := [], eliminated := [], rejected := [],
    constituencies_elected := fun _ => 0, current_round := 1,
    rnd_gen := none, randCtr := 0 }

/-- The state of a successful computation, or the default on failure. -/
def getOk (r : Except Err LoopState) (d : LoopState) : LoopState :=
  match r with
  | .ok s => s
  | .error _ => d

/-- One candidate's vote count in the state of a successful computation. -/
def okVote (r : Except Err LoopState) (c : String) : Option ℚ :=
  match r with
  | .ok s => some (s.vote_count c)
  | .error _ => none

/-- A context with one seat, threshold 0, no constituencies, no quota. -/
def oneSeatCtx : Ctx := ⟨1, 0, false, [], 0, fun _ => 0⟩

/-- A single-hopeful state where every vote count reads 1. -/
def oneHopefulState : LoopState :=
  { allocated := fun _ => [], vote_count := fun _ => 1, candidates := ["A"],
    elected := [], hopefuls := ["A"], eliminated := [], rejected := [],
    constituencies_elected := fun _ => 0, current_round := 1,
    rnd_gen := none, randCtr := 0 }

/-- A context forcing the elimination path on `twoHopefulState`: one seat,
threshold 10. -/
def elimCtx : Ctx := ⟨1, 10, false, [], 0, fun _ => 0⟩

/-- A two-hopeful state with counts A = 3 and B = 2, both below a threshold
of 10. -/
def twoHopefulState : LoopState :=
  { allocated := fun _ => [], vote_count := fun c => if c = "A" then 3 else 2,
    candidates := ["A", "B"], elected := [], hopefuls := ["A", "B"],
    eliminated := [], rejected := [],
    constituencies_elected := fun _ => 0, current_round := 1,
    rnd_gen := none, randCtr := 0 }

/-- One allocation bucket: candidate A holds a single ballot ranked A then
B. -/
def oneBallotAlloc : String → List MBallot :=
  fun c => if c = "A" then [⟨["A", "B"], 0, 1⟩] else []

/-- Vote counts matching `oneBallotAlloc`. -/
def oneBallotVC : String → ℚ := fun c => if c = "A" then 1 else 0

/-- One unit ballot for candidate A. -/
def oneBallotList : List MBallot := [unitBallot ["A"]]

/-- Initial state of the one-ballot run. -/
def oneBallotInit : LoopState :=
  getOk (initState oneBallotList [] none) emptyLoopState

/-- A state in the middle of a count: A already elected at count 5, C
already eliminated, B the only hopeful; every count reads 5. -/
def midCountState : LoopState :=
  { allocated := fun _ => [], vote_count := fun _ => 5,
    candidates := ["A", "B", "C"], elected := [("A", 1, 5)],
    hopefuls := ["B"], eliminated := ["C"], rejected := [],
    constituencies_elected := fun _ => 0, current_round := 2,
    rnd_gen := none, randCtr := 0 }

/-! Basic lemmas about the building blocks. -/

theorem updF_apply (f : String → ℚ) (k : String) (x : ℚ) (c : String) :
    updF f k x c = if c = k then x else f c := rfl

theorem updF_ne (f : String → ℚ) (k : String) (x : ℚ) (c : String)
    (h : c ≠ k) : updF f k x c = f c := by
  simp [updF, h]

theorem updF_self (f : String → ℚ) (k : String) (x : ℚ) : updF f k x k = x := by
  simp [updF]

theorem updA_ne (f : String → List MBallot) (k : String) (x : List MBallot)
    (c : String) (h : c ≠ k) : updA f k x c = f c := by
  simp [updA, h]

theorem updA_self (f : String → List MBallot) (k : String) (x : List MBallot) :
    updA f k x k = x := by
  simp [updA]

theorem map_eq_on {f g : String → ℚ} :
    ∀ l : List String, (∀ a ∈ l, f a = g a) → l.map f = l.map g := by
  intro l
  induction l with
  | nil => intro _; rfl
  | cons a t ih =>
    intro h
    simp only [List.map_cons, h a (List.mem_cons_self a t),
      ih fun x hx => h x (List.mem_cons_of_mem a hx)]

theorem sum_map_updF (v : String → ℚ) (k : String) (x : ℚ) :
    ∀ L : List String, L.Nodup → k ∈ L →
      (L.map (updF v k x)).sum = (L.map v).sum - v k + x := by
  intro L
  induction L with
  | nil => intro _ h; cases h
  | cons c t ih =>
    intro hnd hk
    rcases List.mem_cons.mp hk with rfl | hkt
    · have hct : k ∉ t := (List.nodup_cons.mp hnd).1
      have : t.map (updF v k x) = t.map v :=
        map_eq_on t fun a ha => updF_ne v k x a (fun h => hct (h ▸ ha))
      have hx : updF v k x k = x := by simp [updF]
      simp only [List.map_cons, List.sum_cons, this, hx]
      ring
    · have hck : c ≠ k := fun h => (List.nodup_cons.mp hnd).1 (h ▸ hkt)
      simp only [List.map_cons, List.sum_cons,
        ih (List.nodup_cons.mp hnd).2 hkt, updF_ne v k x c hck]
      ring

theorem getD_drop : ∀ (l : List String) (s k : Nat) (d : String),
    (l.drop s).getD k d = l.getD (s + k) d := by
  intro l
  induction l with
  | nil => intro s k d; simp
  | cons c t ih =>
    intro s k d
    cases s with
    | zero => simp
    | succ s' =>
      rw [List.drop_succ_cons, ih s' k d]
      have hsk : s' + 1 + k = (s' + k) + 1 := by omega
      rw [hsk, List.getD_cons_succ]

theorem getD_mem : ∀ (l : List String) (i : Nat) (d : String),
    i < l.length → l.getD i d ∈ l := by
  intro l
  induction l with
  | nil => intro i d h; simp at h
  | cons c t ih =>
    intro i d h
    cases i with
    | zero => simp
    | succ i' =>
      simp only [List.getD_cons_succ]
      exact List.mem_cons_of_mem c (ih i' d (by simpa using h))

theorem mem_takeWhile_pred {p : String → Bool} :
    ∀ l : List String, ∀ a ∈ l.takeWhile p, p a = true := by
  intro l
  induction l with
  | nil => intro a ha; simp [List.takeWhile] at ha
  | cons c t ih =>
    intro a ha
    by_cases hc : p c
    · rw [List.takeWhile_cons, if_pos hc] at ha
      rcases List.mem_cons.mp ha with rfl | hat
      · exact hc
      · exact ih a hat
    · rw [List.takeWhile_cons, if_neg hc] at ha
      cases ha

/-! Characterization of the preference scan. -/

theorem scanAux_some (hopefuls : List String) :
    ∀ (l : List String) (i j : Nat), scanAux hopefuls l i = some j →
      i ≤ j ∧ j - i < l.length ∧ l.getD (j - i) "" ∈ hopefuls ∧
        ∀ k, k < j - i → l.getD k "" ∉ hopefuls := by
  intro l
  induction l with
  | nil => intro i j h; simp [scanAux] at h
  | cons c cs ih =>
    intro i j h
    by_cases hc : c ∈ hopefuls
    · rw [scanAux, if_pos hc] at h
      cases h
      refine ⟨le_rfl, by simp, by simp [hc], ?_⟩
      intro k hk
      omega
    · rw [scanAux, if_neg hc] at h
      obtain ⟨h1, h2, h3, h4⟩ := ih (i + 1) j h
      refine ⟨by omega, by simp; omega, ?_, ?_⟩
      · have : j - i = (j - (i + 1)) + 1 := by omega
        rw [this, List.getD_cons_succ]
        exact h3
      · intro k hk
        cases k with
        | zero => simpa using hc
        | succ k' =>
          rw [List.getD_cons_succ]
          exact h4 k' (by omega)

theorem scanAux_none (hopefuls : List String) :
    ∀ (l : List String) (i : Nat), scanAux hopefuls l i = none →
      ∀ k, k < l.length → l.getD k "" ∉ hopefuls := by
  intro l
  induction l with
  | nil => intro i _ k hk; simp at hk
  | cons c cs ih =>
    intro i h k hk
    by_cases hc : c ∈ hopefuls
    · rw [scanAux, if_pos hc] at h; cases h
    · rw [scanAux, if_neg hc] at h
      cases k with
      | zero => simpa using hc
      | succ k' =>
        rw [List.getD_cons_succ]
        exact ih (i + 1) h k' (by simpa using hk)

theorem scanPref_some (hopefuls cands : List String) (s j : Nat)
    (h : scanPref hopefuls cands s = some j) :
    s ≤ j ∧ j < cands.length ∧ cands.getD j "" ∈ hopefuls ∧
      ∀ k, s ≤ k → k < j → cands.getD k "" ∉ hopefuls := by
  obtain ⟨h1, h2, h3, h4⟩ := scanAux_some hopefuls (cands.drop s) s j h
  rw [List.length_drop] at h2
  rw [getD_drop] at h3
  have hs : s + (j - s) = j := by omega
  rw [hs] at h3
  refine ⟨h1, by omega, h3, ?_⟩
  intro k hks hkj
  have := h4 (k - s) (by omega)
  rw [getD_drop] at this
  have hk : s + (k - s) = k := by omega
  rwa [hk] at this

theorem scanPref_none (hopefuls cands : List String) (s : Nat)
    (h : scanPref hopefuls cands s = none) :
    ∀ k, s ≤ k → k < cands.length → cands.getD k "" ∉ hopefuls := by
  intro k hks hk
  have := scanAux_none hopefuls (cands.drop s) s h (k - s)
    (by rw [List.length_drop]; omega)
  rw [getD_drop] at this
  have hkk : s + (k - s) = k := by omega
  rwa [hkk] at this

theorem scanPref_mem (hopefuls cands : List String) (s j : Nat)
    (h : scanPref hopefuls cands s = some j) :
    cands.getD j "" ∈ hopefuls :=
  (scanPref_some hopefuls cands s j h).2.2.1

/-! The stable descending sort. -/

theorem mem_insertDesc (key : String → ℚ) (x : String) :
    ∀ (l : List String) (z : String),
      z ∈ insertDesc key x l ↔ z = x ∨ z ∈ l := by
  intro l
  induction l with
  | nil => intro z; simp [insertDesc]
  | cons y ys ih =>
    intro z
    rw [insertDesc]
    by_cases h : key x < key y
    · rw [if_pos h]
      simp only [List.mem_cons, ih]
      tauto
    · rw [if_neg h]
      simp only [List.mem_cons]

theorem insertDesc_perm (key : String → ℚ) (x : String) :
    ∀ l : List String, (insertDesc key x l).Perm (x :: l) := by
  intro l
  induction l with
  | nil => simp [insertDesc]
  | cons y ys ih =>
    rw [insertDesc]
    by_cases h : key x < key y
    · rw [if_pos h]
      exact (ih.cons y).trans (List.Perm.swap x y ys)
    · rw [if_neg h]

theorem sortDesc_perm (key : String → ℚ) :
    ∀ l : List String, (sortDesc key l).Perm l := by
  intro l
  induction l with
  | nil => simp [sortDesc]
  | cons x xs ih =>
    exact (insertDesc_perm key x (sortDesc key xs)).trans (ih.cons x)

theorem insertDesc_sorted (key : String → ℚ) (x : String) :
    ∀ l : List String, l.Pairwise (fun a b => key b ≤ key a) →
      (insertDesc key x l).Pairwise (fun a b => key b ≤ key a) := by
  intro l
  induction l with
  | nil => intro _; simp [insertDesc]
  | cons y ys ih =>
    intro hp
    obtain ⟨hy, hys⟩ := List.pairwise_cons.mp hp
    rw [insertDesc]
    by_cases h : key x < key y
    · rw [if_pos h]
      refine List.pairwise_cons.mpr ⟨?_, ih hys⟩
      intro z hz
      rcases (mem_insertDesc key x ys z).mp hz with rfl | hzys
      · exact le_of_lt h
      · exact hy z hzys
    · rw [if_neg h]
      refine List.pairwise_cons.mpr ⟨?_, hp⟩
      intro z hz
      rcases List.mem_cons.mp hz with rfl | hzys
      · exact le_of_not_lt h
      · exact le_trans (hy z hzys) (le_of_not_lt h)

theorem sortDesc_sorted (key : String → ℚ) :
    ∀ l : List String, (sortDesc key l).Pairwise (fun a b => key b ≤ key a) := by
  intro l
  induction l with
  | nil => simp [sortDesc]
  | cons x xs ih => exact insertDesc_sorted key x (sortDesc key xs) ih

theorem sortDesc_head_max (key : String → ℚ) (l : List String) :
    ∀ y ∈ sortDesc key l, key y ≤ key ((sortDesc key l).headD "") := by
  intro y hy
  cases hs : sortDesc key l with
  | nil => rw [hs] at hy; cases hy
  | cons h t =>
    rw [hs] at hy
    rcases List.mem_cons.mp hy with rfl | hyt
    · simp
    · simpa using (List.pairwise_cons.mp (hs ▸ sortDesc_sorted key l)).1 y hyt

/-! Characterization of the redistribution fold. -/

theorem redistFold (selected : String) (w : ℚ) (hopefuls : List String)
    (hsel : selected ∉ hopefuls) :
    ∀ (l : List MBallot) (al : String → List MBallot) (vc : String → ℚ)
      (rem : List MBallot),
      (l.foldl (redistStep selected w hopefuls) (al, vc, rem)).2.2 =
          rem ++ l.filter (fun b => (transferIdx hopefuls b).isNone) ∧
        (l.foldl (redistStep selected w hopefuls) (al, vc, rem)).1 selected =
          al selected ∧
        (∀ c, c ≠ selected →
          (l.foldl (redistStep selected w hopefuls) (al, vc, rem)).1 c =
            al c ++ l.filterMap (incomingTo hopefuls w c)) ∧
        (l.foldl (redistStep selected w hopefuls) (al, vc, rem)).2.1 selected =
          vc selected - (l.map (outgoingVal hopefuls w)).sum ∧
        (∀ c, c ≠ selected →
          (l.foldl (redistStep selected w hopefuls) (al, vc, rem)).2.1 c =
            vc c + (l.map (incomingVal hopefuls w c)).sum) := by
  intro l
  induction l with
  | nil =>
    intro al vc rem
    refine ⟨by simp, rfl, fun c _ => by simp, by simp, fun c _ => by simp⟩
  | cons b t ih =>
    intro al vc rem
    rw [List.foldl_cons]
    rcases hscan : transferIdx hopefuls b with _ | i
    · have hstep : redistStep selected w hopefuls (al, vc, rem) b =
          (al, vc, rem ++ [b]) := by
        rw [redistStep]
        rw [show scanPref hopefuls b.candidates (b.pref + 1) =
          transferIdx hopefuls b from rfl, hscan]
      rw [hstep]
      obtain ⟨i1, i2, i3, i4, i5⟩ := ih al vc (rem ++ [b])
      refine ⟨?_, i2, ?_, ?_, ?_⟩
      · rw [i1, List.filter_cons]
        simp [hscan, Option.isNone]
      · intro c hc
        rw [i3 c hc, List.filterMap_cons]
        simp [incomingTo, hscan]
      · rw [i4, List.map_cons, List.sum_cons]
        simp [outgoingVal, hscan]
      · intro c hc
        rw [i5 c hc, List.map_cons, List.sum_cons]
        simp [incomingVal, hscan]
    · have hrec : b.candidates.getD i "" ∈ hopefuls := scanPref_mem _ _ _ _ hscan
      have hrecne : b.candidates.getD i "" ≠ selected := fun h => hsel (h ▸ hrec)
      have hstep : redistStep selected w hopefuls (al, vc, rem) b =
          (updA al (b.candidates.getD i "")
             (al (b.candidates.getD i "") ++ [movedBallot w b i]),
           updF (updF vc (b.candidates.getD i "")
               (vc (b.candidates.getD i "") + b.value * w)) selected
             ((updF vc (b.candidates.getD i "")
               (vc (b.candidates.getD i "") + b.value * w)) selected - b.value * w),
           rem) := by
        rw [redistStep]
        rw [show scanPref hopefuls b.candidates (b.pref + 1) =
          transferIdx hopefuls b from rfl, hscan]
        rfl
      rw [hstep]
      obtain ⟨i1, i2, i3, i4, i5⟩ := ih
        (updA al (b.candidates.getD i "")
          (al (b.candidates.getD i "") ++ [movedBallot w b i]))
        (updF (updF vc (b.candidates.getD i "")
            (vc (b.candidates.getD i "") + b.value * w)) selected
          ((updF vc (b.candidates.getD i "")
            (vc (b.candidates.getD i "") + b.value * w)) selected - b.value * w))
        rem
      have hvcsel : (updF (updF vc (b.candidates.getD i "")
            (vc (b.candidates.getD i "") + b.value * w)) selected
          ((updF vc (b.candidates.getD i "")
            (vc (b.candidates.getD i "") + b.value * w)) selected - b.value * w))
          selected =
          vc selected - b.value * w := by
        rw [updF_apply, if_pos rfl, updF_ne _ _ _ _ hrecne.symm]
      have hpred : (transferIdx hopefuls b).isNone = false := by
        simp only [hscan, Option.isNone]
      have hout : outgoingVal hopefuls w b = b.value * w := by
        simp only [outgoingVal, hscan]
      refine ⟨?_, ?_, ?_, ?_, ?_⟩
      · rw [i1, List.filter_cons, hpred]
        simp
      · rw [i2, updA_ne _ _ _ _ hrecne.symm]
      · intro c hc
        rw [i3 c hc, List.filterMap_cons]
        by_cases hcr : b.candidates.getD i "" = c
        · have hin : incomingTo hopefuls w c b = some (movedBallot w b i) := by
            simp only [incomingTo, hscan, if_pos hcr]
          rw [hin, ← hcr, updA_self]
          simp
        · have hin : incomingTo hopefuls w c b = none := by
            simp only [incomingTo, hscan, if_neg hcr]
          rw [hin, updA_ne _ _ _ c (fun h => hcr h.symm)]
      · rw [i4, hvcsel, List.map_cons, List.sum_cons, hout]
        ring
      · intro c hc
        rw [i5 c hc, List.map_cons, List.sum_cons]
        rw [updF_ne _ selected _ c hc]
        by_cases hcr : b.candidates.getD i "" = c
        · have hin : incomingVal hopefuls w c b = b.value * w := by
            simp only [incomingVal, hscan, if_pos hcr]
          rw [hin, ← hcr, updF_self]
          rw [hcr]
          ring
        · have hin : incomingVal hopefuls w c b = 0 := by
            simp only [incomingVal, hscan, if_neg hcr]
          rw [hin, updF_ne _ _ _ c (fun h => hcr h.symm)]
          ring

theorem redistFold_vc_ne (selected : String) (w : ℚ) (hopefuls : List String)
    (c : String) (hc1 : c ≠ selected) (hc2 : c ∉ hopefuls) :
    ∀ (l : List MBallot) (al : String → List MBallot) (vc : String → ℚ)
      (rem : List MBallot),
      (l.foldl (redistStep selected w hopefuls) (al, vc, rem)).2.1 c = vc c := by
  intro l
  induction l with
  | nil => intro al vc rem; rfl
  | cons b t ih =>
    intro al vc rem
    rw [List.foldl_cons]
    rcases hscan : transferIdx hopefuls b with _ | i
    · have hstep : redistStep selected w hopefuls (al, vc, rem) b =
          (al, vc, rem ++ [b]) := by
        rw [redistStep]
        rw [show scanPref hopefuls b.candidates (b.pref + 1) =
          transferIdx hopefuls b from rfl, hscan]
      rw [hstep, ih]
    · have hrec : b.candidates.getD i "" ∈ hopefuls := scanPref_mem _ _ _ _ hscan
      have hcrec : c ≠ b.candidates.getD i "" := fun h => hc2 (h ▸ hrec)
      have hstep : redistStep selected w hopefuls (al, vc, rem) b =
          (updA al (b.candidates.getD i "")
             (al (b.candidates.getD i "") ++ [movedBallot w b i]),
           updF (updF vc (b.candidates.getD i "")
               (vc (b.candidates.getD i "") + b.value * w)) selected
             ((updF vc (b.candidates.getD i "")
               (vc (b.candidates.getD i "") + b.value * w)) selected - b.value * w),
           rem) := by
        rw [redistStep]
        rw [show scanPref hopefuls b.candidates (b.pref + 1) =
          transferIdx hopefuls b from rfl, hscan]
        rfl
      rw [hstep, ih, updF_ne _ selected _ c hc1, updF_ne _ _ _ c hcrec]

theorem redistFold_sum (selected : String) (w : ℚ) (hopefuls : List String)
    (L : List String) (hnd : L.Nodup) (hselL : selected ∈ L)
    (hhs : ∀ x ∈ hopefuls, x ∈ L) :
    ∀ (l : List MBallot) (al : String → List MBallot) (vc : String → ℚ)
      (rem : List MBallot),
      (L.map (l.foldl (redistStep selected w hopefuls) (al, vc, rem)).2.1).sum =
        (L.map vc).sum := by
  intro l
  induction l with
  | nil => intro al vc rem; rfl
  | cons b t ih =>
    intro al vc rem
    rw [List.foldl_cons]
    rcases hscan : transferIdx hopefuls b with _ | i
    · have hstep : redistStep selected w hopefuls (al, vc, rem) b =
          (al, vc, rem ++ [b]) := by
        rw [redistStep]
        rw [show scanPref hopefuls b.candidates (b.pref + 1) =
          transferIdx hopefuls b from rfl, hscan]
      rw [hstep, ih]
    · have hrec : b.candidates.getD i "" ∈ hopefuls := scanPref_mem _ _ _ _ hscan
      have hstep : redistStep selected w hopefuls (al, vc, rem) b =
          (updA al (b.candidates.getD i "")
             (al (b.candidates.getD i "") ++ [movedBallot w b i]),
           updF (updF vc (b.candidates.getD i "")
               (vc (b.candidates.getD i "") + b.value * w)) selected
             ((updF vc (b.candidates.getD i "")
               (vc (b.candidates.getD i "") + b.value * w)) selected - b.value * w),
           rem) := by
        rw [redistStep]
        rw [show scanPref hopefuls b.candidates (b.pref + 1) =
          transferIdx hopefuls b from rfl, hscan]
        rfl
      rw [hstep, ih]
      rw [sum_map_updF _ selected _ L hnd hselL,
        sum_map_updF _ (b.candidates.getD i "") _ L hnd (hhs _ hrec)]
      ring

theorem redistribute_vc_ne (selected : String) (w : ℚ) (hopefuls : List String)
    (al : String → List MBallot) (vc : String → ℚ) (c : String)
    (hc1 : c ≠ selected) (hc2 : c ∉ hopefuls) :
    (redistribute_ballots selected w hopefuls al vc).2 c = vc c := by
  rw [redistribute_ballots]
  exact redistFold_vc_ne selected w hopefuls c hc1 hc2 _ al vc []

theorem redistribute_sum (selected : String) (w : ℚ) (hopefuls : List String)
    (al : String → List MBallot) (vc : String → ℚ) (L : List String)
    (hnd : L.Nodup) (hselL : selected ∈ L) (hhs : ∀ x ∈ hopefuls, x ∈ L) :
    (L.map (redistribute_ballots selected w hopefuls al vc).2).sum =
      (L.map vc).sum := by
  rw [redistribute_ballots]
  exact redistFold_sum selected w hopefuls L hnd hselL hhs _ al vc []

/-! Lemmas about the tie-break selector and the decider. -/

theorem rsf_error_cases (sequence : List String) (key : String → ℚ)
    (rnd_gen : Option (List String)) (randIdx : Nat) (e : Err)
    (h : randomly_select_first sequence key rnd_gen randIdx = .error e) :
    e = .indexError ∨ e = .tieBreakExhausted := by
  rw [randomly_select_first.eq_def] at h
  rcases sequence with _ | ⟨s0, rest⟩
  · cases h
    exact Or.inl rfl
  · simp only [] at h
    split at h
    · split at h
      · cases h
      · cases h
        exact Or.inr rfl
      · cases h
    · cases h

theorem rsf_none_ok_key (sequence : List String) (key : String → ℚ)
    (randIdx : Nat) (best : String) (rnd' : Option (List String))
    (h : randomly_select_first sequence key none randIdx = .ok (best, rnd')) :
    key best = key (sequence.headD "") := by
  rw [randomly_select_first.eq_def] at h
  rcases sequence with _ | ⟨s0, rest⟩
  · cases h
  · simp only [] at h
    split at h
    · rename_i hlen
      cases h
      have hmem : ((s0 :: rest).takeWhile
          (fun c => decide (key c = key s0))).getD
            (randIdx % ((s0 :: rest).takeWhile
              (fun c => decide (key c = key s0))).length) "" ∈
          (s0 :: rest).takeWhile (fun c => decide (key c = key s0)) := by
        apply getD_mem
        exact Nat.mod_lt _ (by omega)
      have := mem_takeWhile_pred _ _ hmem
      simpa using this
    · cases h
      simp

theorem elect_reject_error_cases (candidate : String) (vote_count : String → ℚ)
    (constituencies : List (String × Nat)) (quota_limit : Nat)
    (current_round : Nat) (elected rejected : List (String × Nat × ℚ))
    (ce : Nat → Nat) (e : Err)
    (h : elect_reject candidate vote_count constituencies quota_limit
      current_round elected rejected ce = .error e) :
    e = .keyError := by
  rw [elect_reject.eq_def] at h
  split at h
  · cases h
  · split at h
    · cases h
    · split at h
      · cases h
        rfl
      · cases h

theorem elect_reject_quota0 (candidate : String) (vote_count : String → ℚ)
    (constituencies : List (String × Nat)) (current_round : Nat)
    (elected rejected : List (String × Nat × ℚ)) (ce : Nat → Nat)
    (res : Bool × List (String × Nat × ℚ) × List (String × Nat × ℚ) × (Nat → Nat))
    (h : elect_reject candidate vote_count constituencies 0
      current_round elected rejected ce = .ok res) :
    res.1 = true := by
  rw [elect_reject.eq_def] at h
  have hq : quotaExceeded candidate constituencies 0 ce = false := by
    simp [quotaExceeded]
  rw [hq] at h
  simp only [Bool.false_eq_true, if_false] at h
  split at h
  · cases h
    rfl
  · split at h
    · cases h
    · cases h
      rfl

/-! Shape of successful election/elimination steps. -/

theorem electionP1_vc_ne (s : LoopState) (best : String) (was : Bool)
    (c : String) (hcb : c ≠ best) (hch : c ∉ s.hopefuls.erase best) :
    (electionP1 s best was).2 c = s.vote_count c := by
  cases was
  · simp only [electionP1, Bool.false_eq_true, if_false]
    exact redistribute_vc_ne _ _ _ _ _ c hcb hch
  · rfl

theorem electionP1_sum (s : LoopState) (best : String) (was : Bool)
    (L : List String) (hnd : L.Nodup) (hbL : best ∈ L)
    (hsub : ∀ x ∈ s.hopefuls.erase best, x ∈ L) :
    (L.map (electionP1 s best was).2).sum = (L.map s.vote_count).sum := by
  cases was
  · simp only [electionP1, Bool.false_eq_true, if_false]
    exact redistribute_sum _ _ _ _ _ L hnd hbL hsub
  · rfl

theorem electionFinish_ok (s : LoopState) (best : String)
    (rnd' : Option (List String)) (surplus : ℚ)
    (elected' rejected' : List (String × Nat × ℚ)) (ce' : Nat → Nat)
    (was : Bool) (s' : LoopState)
    (h : electionFinish s best rnd' surplus elected' rejected' ce' was = .ok s') :
    s'.candidates = s.candidates ∧ s'.hopefuls = s.hopefuls.erase best ∧
      s'.eliminated = s.eliminated ∧
      (∀ c, c ≠ best → c ∉ s.hopefuls.erase best →
        s'.vote_count c = s.vote_count c) ∧
      (∀ L : List String, L.Nodup → best ∈ L →
        (∀ x ∈ s.hopefuls.erase best, x ∈ L) →
        (L.map s'.vote_count).sum = (L.map s.vote_count).sum) := by
  by_cases hs : surplus > 0
  · rw [electionFinish, if_pos hs] at h
    by_cases hz : (electionP1 s best was).2 best = 0
    · rw [if_pos hz] at h
      cases h
    · rw [if_neg hz] at h
      cases h
      refine ⟨rfl, rfl, rfl, ?_, ?_⟩
      · intro c hcb hch
        exact (redistribute_vc_ne _ _ _ _ _ c hcb hch).trans
          (electionP1_vc_ne s best was c hcb hch)
      · intro L hnd hbL hsub
        exact (redistribute_sum _ _ _ _ _ L hnd hbL hsub).trans
          (electionP1_sum s best was L hnd hbL hsub)
  · rw [electionFinish, if_neg hs] at h
    cases h
    refine ⟨rfl, rfl, rfl, ?_, ?_⟩
    · intro c hcb hch
      exact electionP1_vc_ne s best was c hcb hch
    · intro L hnd hbL hsub
      exact electionP1_sum s best was L hnd hbL hsub

theorem electionStep_ok (ctx : Ctx) (s : LoopState) (sorted : List String)
    (surplus : ℚ) (s' : LoopState)
    (h : electionStep ctx s sorted surplus = .ok s') :
    ∃ best, best ∈ s.hopefuls ∧ s'.candidates = s.candidates ∧
      s'.hopefuls = s.hopefuls.erase best ∧ s'.eliminated = s.eliminated ∧
      (∀ c, c ≠ best → c ∉ s.hopefuls.erase best →
        s'.vote_count c = s.vote_count c) ∧
      (∀ L : List String, L.Nodup → best ∈ L →
        (∀ x ∈ s.hopefuls.erase best, x ∈ L) →
        (L.map s'.vote_count).sum = (L.map s.vote_count).sum) := by
  rw [electionStep.eq_def] at h
  rcases hr : randomly_select_first sorted s.vote_count s.rnd_gen
      (ctx.randFn s.randCtr) with e | ⟨best, rnd'⟩
  · rw [hr] at h
    dsimp only [] at h
    cases h
  · rw [hr] at h
    dsimp only [] at h
    by_cases hb : best ∈ s.hopefuls
    · rw [if_pos hb] at h
      rcases her : elect_reject best s.vote_count ctx.constituencies
          ctx.quota_limit s.current_round s.elected s.rejected
          s.constituencies_elected with e | ⟨was, e', r', ce'⟩
      · rw [her] at h
        dsimp only [] at h
        cases h
      · rw [her] at h
        dsimp only [] at h
        obtain ⟨h1, h2, h3, h4, h5⟩ :=
          electionFinish_ok s best rnd' surplus e' r' ce' was s' h
        exact ⟨best, hb, h1, h2, h3, h4, h5⟩
    · rw [if_neg hb] at h
      cases h

theorem eliminationStep_ok (ctx : Ctx) (s : LoopState) (sorted : List String)
    (s' : LoopState) (h : eliminationStep ctx s sorted = .ok s') :
    ∃ worst, worst ∈ s.hopefuls ∧ s'.candidates = s.candidates ∧
      s'.hopefuls = s.hopefuls.erase worst ∧
      s'.eliminated = s.eliminated ++ [worst] ∧
      (∀ c, c ≠ worst → c ∉ s.hopefuls.erase worst →
        s'.vote_count c = s.vote_count c) ∧
      (∀ L : List String, L.Nodup → worst ∈ L →
        (∀ x ∈ s.hopefuls.erase worst, x ∈ L) →
        (L.map s'.vote_count).sum = (L.map s.vote_count).sum) := by
  rw [eliminationStep.eq_def] at h
  rcases hr : randomly_select_first sorted.reverse s.vote_count s.rnd_gen
      (ctx.randFn s.randCtr) with e | ⟨worst, rnd'⟩
  · rw [hr] at h
    dsimp only [] at h
    cases h
  · rw [hr] at h
    dsimp only [] at h
    by_cases hb : worst ∈ s.hopefuls
    · rw [if_pos hb] at h
      cases h
      refine ⟨worst, hb, rfl, rfl, rfl, ?_, ?_⟩
      · intro c hcb hch
        exact redistribute_vc_ne _ _ _ _ _ c hcb hch
      · intro L hnd hbL hsub
        exact redistribute_sum _ _ _ _ _ L hnd hbL hsub
    · rw [if_neg hb] at h
      cases h

/-- Shape of any successful round: candidates unchanged, hopefuls only
shrink, vote counts of candidates outside the hopeful set unchanged, and
(under well-formedness) total vote mass unchanged. -/
theorem stvRound_ok (ctx : Ctx) (s s' : LoopState)
    (h : stvRound ctx s = .ok s') :
    s'.candidates = s.candidates ∧
      (∀ c, c ∉ s.hopefuls → s'.vote_count c = s.vote_count c) ∧
      (∀ c, c ∈ s'.hopefuls → c ∈ s.hopefuls) ∧
      (s.candidates.Nodup → (∀ c ∈ s.hopefuls, c ∈ s.candidates) →
        totalVotes s' = totalVotes s) := by
  rw [stvRound.eq_def] at h
  split at h
  · cases h
    refine ⟨rfl, fun c _ => rfl, ?_, fun _ _ => rfl⟩
    intro c hc
    exact hc
  · dsimp only [] at h
    split at h
    · obtain ⟨best, hb, hcand, hhop, _helim, hframe, hsum⟩ :=
        electionStep_ok ctx s _ _ s' h
      refine ⟨hcand, ?_, ?_, ?_⟩
      · intro c hc
        exact hframe c (fun hcb => hc (hcb ▸ hb))
          (fun hch => hc (List.erase_subset _ _ hch))
      · intro c hc
        rw [hhop] at hc
        exact List.erase_subset _ _ hc
      · intro hnd hsubc
        rw [totalVotes, totalVotes, hcand]
        exact hsum s.candidates hnd (hsubc best hb)
          (fun y hy => hsubc y (List.erase_subset _ _ hy))
    · obtain ⟨worst, hb, hcand, hhop, _helim, hframe, hsum⟩ :=
        eliminationStep_ok ctx s _ s' h
      refine ⟨hcand, ?_, ?_, ?_⟩
      · intro c hc
        exact hframe c (fun hcb => hc (hcb ▸ hb))
          (fun hch => hc (List.erase_subset _ _ hch))
      · intro c hc
        rw [hhop] at hc
        exact List.erase_subset _ _ hc
      · intro hnd hsubc
        rw [totalVotes, totalVotes, hcand]
        exact hsum s.candidates hnd (hsubc worst hb)
          (fun y hy => hsubc y (List.erase_subset _ _ hy))

/-! Facts that propagate along iterated rounds. -/

theorem iterate_frame (ctx : Ctx) :
    ∀ (n : Nat) (s s' : LoopState) (c : String), c ∉ s.hopefuls →
      iterateRounds ctx n s = .ok s' → s'.vote_count c = s.vote_count c := by
  intro n
  induction n with
  | zero =>
    intro s s' c _ h
    cases h
    rfl
  | succ n ih =>
    intro s s' c hc h
    rw [iterateRounds] at h
    rcases hr : stvRound ctx s with e | s1
    · rw [hr] at h
      cases h
    · rw [hr] at h
      dsimp only [] at h
      obtain ⟨_, hframe, hsub, _⟩ := stvRound_ok ctx s s1 hr
      have hc1 : c ∉ s1.hopefuls := fun hmem => hc (hsub c hmem)
      rw [ih s1 s' c hc1 h, hframe c hc]

/-- The well-formedness carried across rounds: candidate list without
duplicates and hopefuls drawn from it. -/
def WFState (s : LoopState) : Prop :=
  s.candidates.Nodup ∧ ∀ c ∈ s.hopefuls, c ∈ s.candidates

theorem stvRound_WF (ctx : Ctx) (s s' : LoopState)
    (h : stvRound ctx s = .ok s') (hwf : WFState s) : WFState s' := by
  obtain ⟨hcand, _, hsub, _⟩ := stvRound_ok ctx s s' h
  constructor
  · rw [hcand]
    exact hwf.1
  · intro c hc
    rw [hcand]
    exact hwf.2 c (hsub c hc)

theorem iterate_conservation (ctx : Ctx) :
    ∀ (n : Nat) (s s' : LoopState), WFState s →
      iterateRounds ctx n s = .ok s' → totalVotes s' = totalVotes s := by
  intro n
  induction n with
  | zero =>
    intro s s' _ h
    cases h
    rfl
  | succ n ih =>
    intro s s' hwf h
    rw [iterateRounds] at h
    rcases hr : stvRound ctx s with e | s1
    · rw [hr] at h
      cases h
    · rw [hr] at h
      dsimp only [] at h
      obtain ⟨_, _, _, hsum⟩ := stvRound_ok ctx s s1 hr
      rw [ih s1 s' (stvRound_WF ctx s s1 hr hwf) h, hsum hwf.1 hwf.2]

/-! The zombie loop never touches vote counts, and every entry it adds to the
elected list records the frozen count. -/

theorem elect_reject_ok_elected (candidate : String) (vote_count : String → ℚ)
    (constituencies : List (String × Nat)) (quota_limit : Nat)
    (current_round : Nat) (elected rejected : List (String × Nat × ℚ))
    (ce : Nat → Nat)
    (res : Bool × List (String × Nat × ℚ) × List (String × Nat × ℚ) × (Nat → Nat))
    (h : elect_reject candidate vote_count constituencies quota_limit
      current_round elected rejected ce = .ok res) :
    res.2.1 = elected ∨
      res.2.1 = elected ++ [(candidate, current_round, vote_count candidate)] := by
  rw [elect_reject.eq_def] at h
  split at h
  · cases h
    exact Or.inl rfl
  · split at h
    · cases h
      exact Or.inr rfl
    · split at h
      · cases h
      · cases h
        exact Or.inr rfl

theorem zombieLoop_ok (ctx : Ctx) :
    ∀ (fuel ne : Nat) (s s' : LoopState), zombieLoop ctx fuel ne s = .ok s' →
      s'.vote_count = s.vote_count ∧
      ∀ en ∈ s'.elected, en ∈ s.elected ∨ en.2.2 = s.vote_count en.1 := by
  intro fuel
  induction fuel with
  | zero =>
    intro ne s s' h
    cases h
    exact ⟨rfl, fun en hen => Or.inl hen⟩
  | succ fuel ih =>
    intro ne s s' h
    rw [zombieLoop] at h
    split at h
    · split at h
      · cases h
        exact ⟨rfl, fun en hen => Or.inl hen⟩
      · rename_i best hlast
        rcases her : elect_reject best s.vote_count ctx.constituencies
            ctx.quota_limit s.current_round s.elected s.rejected
            s.constituencies_elected with e | ⟨was, e', r', ce'⟩
        · rw [her] at h
          dsimp only [] at h
          cases h
        · rw [her] at h
          dsimp only [] at h
          obtain ⟨hv, helect⟩ := ih ne _ s' h
          refine ⟨hv, ?_⟩
          intro en hen
          rcases helect en hen with hin | hval
          · have he2 : e' = s.elected ∨
                e' = s.elected ++ [(best, s.current_round, s.vote_count best)] :=
              elect_reject_ok_elected best s.vote_count ctx.constituencies
                ctx.quota_limit s.current_round s.elected s.rejected
                s.constituencies_elected (was, e', r', ce') her
            rcases he2 with he | he
            · rw [he] at hin
              exact Or.inl hin
            · rw [he] at hin
              rcases List.mem_append.mp hin with hl | hr
              · exact Or.inl hl
              · right
                rcases List.mem_singleton.mp hr with rfl
                rfl
          · exact Or.inr hval
    · cases h
      exact ⟨rfl, fun en hen => Or.inl hen⟩

/-! The initial count establishes well-formedness and the total vote mass. -/

theorem addCandidate_nodup (acc : List String) (c : String)
    (h : acc.Nodup) : (addCandidate acc c).Nodup := by
  rw [addCandidate]
  split
  · exact h
  · rename_i hc
    simp [List.nodup_append, h, hc]

theorem addCandidate_mem_mono (acc : List String) (c x : String)
    (h : x ∈ acc) : x ∈ addCandidate acc c := by
  rw [addCandidate]
  split
  · exact h
  · exact List.mem_append_left _ h

theorem mem_addCandidate_self (acc : List String) (c : String) :
    c ∈ addCandidate acc c := by
  rw [addCandidate]
  split
  · assumption
  · simp

theorem addCandidate_sum (acc : List String) (c : String) (vc : String → ℚ)
    (hz : ∀ d, d ∉ acc → vc d = 0) :
    ((addCandidate acc c).map vc).sum = (acc.map vc).sum := by
  rw [addCandidate]
  split
  · rfl
  · rename_i hc
    simp [hz c hc]

theorem foldl_addCandidate_nodup :
    ∀ (l : List String) (acc : List String), acc.Nodup →
      (l.foldl addCandidate acc).Nodup := by
  intro l
  induction l with
  | nil => intro acc h; exact h
  | cons x t ih =>
    intro acc h
    exact ih (addCandidate acc x) (addCandidate_nodup acc x h)

theorem foldl_addCandidate_mem_mono :
    ∀ (l : List String) (acc : List String) (x : String), x ∈ acc →
      x ∈ l.foldl addCandidate acc := by
  intro l
  induction l with
  | nil => intro acc x h; exact h
  | cons y t ih =>
    intro acc x h
    exact ih (addCandidate acc y) x (addCandidate_mem_mono acc y x h)

theorem foldl_addCandidate_mem_of_mem :
    ∀ (l : List String) (acc : List String) (x : String), x ∈ l →
      x ∈ l.foldl addCandidate acc := by
  intro l
  induction l with
  | nil => intro acc x h; cases h
  | cons y t ih =>
    intro acc x h
    rcases List.mem_cons.mp h with rfl | ht
    · exact foldl_addCandidate_mem_mono t (addCandidate acc x) x
        (mem_addCandidate_self acc x)
    · exact ih (addCandidate acc y) x ht

theorem foldl_addCandidate_sum :
    ∀ (l : List String) (acc : List String) (vc : String → ℚ),
      (∀ d, d ∉ acc → vc d = 0) →
      ((l.foldl addCandidate acc).map vc).sum = (acc.map vc).sum := by
  intro l
  induction l with
  | nil => intro acc vc _; rfl
  | cons x t ih =>
    intro acc vc hz
    rw [List.foldl_cons,
      ih (addCandidate acc x) vc
        (fun d hd => hz d (fun hmem => hd (addCandidate_mem_mono acc x d hmem))),
      addCandidate_sum acc x vc hz]

theorem initCount_ok :
    ∀ (bs : List MBallot) (cands : List String) (al : String → List MBallot)
      (vc : String → ℚ)
      (out : List String × (String → List MBallot) × (String → ℚ)),
      initCount bs (cands, al, vc) = .ok out →
      cands.Nodup → (∀ d, d ∉ cands → vc d = 0) →
      out.1.Nodup ∧ (∀ d, d ∉ out.1 → out.2.2 d = 0) ∧
        (out.1.map out.2.2).sum = (cands.map vc).sum + bs.length := by
  intro bs
  induction bs with
  | nil =>
    intro cands al vc out h hnd hz
    cases h
    exact ⟨hnd, hz, by simp⟩
  | cons b bs ih =>
    intro cands al vc out h hnd hz
    rw [initCount.eq_def] at h
    dsimp only [] at h
    rcases hbc : b.candidates with _ | ⟨sel, rest⟩
    · rw [hbc] at h
      cases h
    · rw [hbc] at h
      dsimp only [] at h
      have hselmem : sel ∈ b.candidates.foldl addCandidate cands := by
        rw [hbc]
        exact foldl_addCandidate_mem_of_mem _ cands sel (List.mem_cons_self sel rest)
      have hnd' : (b.candidates.foldl addCandidate cands).Nodup :=
        foldl_addCandidate_nodup _ cands hnd
      have hz' : ∀ d, d ∉ b.candidates.foldl addCandidate cands →
          updF vc sel (vc sel + 1) d = 0 := by
        intro d hd
        have hdc : d ∉ cands :=
          fun hmem => hd (foldl_addCandidate_mem_mono _ cands d hmem)
        have hdsel : d ≠ sel := fun hds => hd (hds ▸ hselmem)
        rw [updF_ne _ _ _ _ hdsel]
        exact hz d hdc
      obtain ⟨o1, o2, o3⟩ := ih (b.candidates.foldl addCandidate cands)
        (updA al sel (al sel ++ [b])) (updF vc sel (vc sel + 1)) out
        (by rw [← hbc] at h; exact h) hnd' hz'
      refine ⟨o1, o2, ?_⟩
      rw [o3, sum_map_updF vc sel (vc sel + 1) _ hnd' hselmem,
        foldl_addCandidate_sum _ cands vc hz]
      simp only [List.length_cons]
      push_cast
      ring

theorem initConstituencyCands_nodup (constituencies : List (String × Nat)) :
    (initConstituencyCands constituencies).Nodup := by
  rw [initConstituencyCands]
  have : ∀ (l : List (String × Nat)) (acc : List String), acc.Nodup →
      (l.foldl (fun acc p => addCandidate acc p.1) acc).Nodup := by
    intro l
    induction l with
    | nil => intro acc h; exact h
    | cons p t ih =>
      intro acc h
      exact ih (addCandidate acc p.1) (addCandidate_nodup acc p.1 h)
  exact this constituencies [] (List.nodup_nil)

theorem initState_ok (ballots : List MBallot)
    (constituencies : List (String × Nat)) (rnd : Option (List String))
    (s0 : LoopState) (h : initState ballots constituencies rnd = .ok s0) :
    WFState s0 ∧ totalVotes s0 = ballots.length ∧
      s0.elected = [] ∧ s0.eliminated = [] ∧ s0.hopefuls = s0.candidates := by
  rw [initState.eq_def] at h
  rcases hic : initCount ballots
      (initConstituencyCands constituencies, fun _ => [], fun _ => 0)
      with e | out
  · rw [hic] at h
    cases h
  · rw [hic] at h
    dsimp only [] at h
    obtain ⟨o1, _o2, o3⟩ := initCount_ok ballots
      (initConstituencyCands constituencies) (fun _ => []) (fun _ => 0) out hic
      (initConstituencyCands_nodup constituencies) (fun d _ => rfl)
    rcases out with ⟨cands, al, vc⟩
    cases h
    refine ⟨⟨o1, fun c hc => hc⟩, ?_, rfl, rfl, rfl⟩
    rw [totalVotes]
    dsimp only []
    rw [o3]
    simp

/-! The division in the surplus transfer: the elimination path never
divides, and an elected candidate's denominator is its untouched vote
count. -/

theorem eliminationStep_no_zeroDiv (ctx : Ctx) (s : LoopState)
    (sorted : List String) :
    eliminationStep ctx s sorted ≠ .error .zeroDivision := by
  intro h
  rw [eliminationStep.eq_def] at h
  rcases hr : randomly_select_first sorted.reverse s.vote_count s.rnd_gen
      (ctx.randFn s.randCtr) with e | ⟨worst, rnd'⟩
  · rw [hr] at h
    dsimp only [] at h
    cases h
    rcases rsf_error_cases _ _ _ _ _ hr with h1 | h1 <;> cases h1
  · rw [hr] at h
    dsimp only [] at h
    split at h
    · cases h
    · cases h

theorem electionFinish_elected_no_zeroDiv (s : LoopState) (best : String)
    (rnd' : Option (List String)) (surplus : ℚ)
    (elected' rejected' : List (String × Nat × ℚ)) (ce' : Nat → Nat)
    (hden : 0 < surplus → s.vote_count best ≠ 0) :
    electionFinish s best rnd' surplus elected' rejected' ce' true ≠
      .error .zeroDivision := by
  intro h
  rw [electionFinish] at h
  by_cases hs : surplus > 0
  · rw [if_pos hs] at h
    have hp1 : (electionP1 s best true).2 best = s.vote_count best := rfl
    rw [hp1, if_neg (hden hs)] at h
    cases h
  · rw [if_neg hs] at h
    cases h

theorem stvRound_no_zeroDiv (ctx : Ctx) (s : LoopState)
    (hq : ctx.quota_limit = 0) (hrnd : s.rnd_gen = none)
    (hthr : 0 ≤ ctx.threshold) :
    stvRound ctx s ≠ .error .zeroDivision := by
  intro h
  rw [stvRound.eq_def] at h
  split at h
  · cases h
  · dsimp only [] at h
    split at h
    · rw [electionStep.eq_def] at h
      rcases hr : randomly_select_first (sortDesc s.vote_count s.hopefuls)
          s.vote_count s.rnd_gen (ctx.randFn s.randCtr) with e | ⟨best, rnd'⟩
      · rw [hr] at h
        dsimp only [] at h
        cases h
        rcases rsf_error_cases _ _ _ _ _ hr with h1 | h1 <;> cases h1
      · rw [hr] at h
        dsimp only [] at h
        split at h
        · rcases her : elect_reject best s.vote_count ctx.constituencies
              ctx.quota_limit s.current_round s.elected s.rejected
              s.constituencies_elected with e | ⟨was, e', r', ce'⟩
          · rw [her] at h
            dsimp only [] at h
            cases h
            have := elect_reject_error_cases best s.vote_count
              ctx.constituencies ctx.quota_limit s.current_round s.elected
              s.rejected s.constituencies_elected .zeroDivision her
            cases this
          · rw [her] at h
            dsimp only [] at h
            rw [hq] at her
            have hwas : was = true :=
              elect_reject_quota0 best s.vote_count ctx.constituencies
                s.current_round s.elected s.rejected s.constituencies_elected
                (was, e', r', ce') her
            subst hwas
            rw [hrnd] at hr
            have hkey : s.vote_count best =
                s.vote_count ((sortDesc s.vote_count s.hopefuls).headD "") := by
              have hk := rsf_none_ok_key (sortDesc s.vote_count s.hopefuls)
                s.vote_count (ctx.randFn s.randCtr) best rnd' hr
              simpa using hk
            refine electionFinish_elected_no_zeroDiv s best rnd' _ e' r' ce'
              ?_ h
            intro hs0 h0
            rw [hkey] at h0
            have : (0 : ℚ) <
                s.vote_count ((sortDesc s.vote_count s.hopefuls).headD "") := by
              linarith
            linarith [this, h0.le, h0.ge]
        · cases h
    · exact eliminationStep_no_zeroDiv ctx s _ h

/-! The claims. -/

/-- C7: for every ballot count B and seat count S, the threshold is
`floor(1 + B/(S+1))` in droop integer mode, exactly `B/(S+1)` in droop
fractional mode, and `ceil(1 + B/(S+1))` in non-droop mode; for B = 100 and
S = 4 these give 21, 20 and 21 respectively. -/
theorem c7_threshold_formulas :
    (∀ B S : Nat,
      computeThreshold B S true false =
        ((⌊1 + (B : ℚ) / ((S : ℚ) + 1)⌋ : ℤ) : ℚ) ∧
      computeThreshold B S true true = (B : ℚ) / ((S : ℚ) + 1) ∧
      ∀ fr : Bool, computeThreshold B S false fr =
        ((⌈1 + (B : ℚ) / ((S : ℚ) + 1)⌉ : ℤ) : ℚ)) ∧
    computeThreshold 100 4 true false = 21 ∧
    computeThreshold 100 4 true true = 20 ∧
    computeThreshold 100 4 false false = 21 := by
  refine ⟨?_, by decide!, by decide!, by decide!⟩
  intro B S
  refine ⟨?_, rfl, ?_⟩
  · have hq : (0 : ℚ) ≤ 1 + (B : ℚ) / ((S : ℚ) + 1) := by positivity
    show ((pyInt (1 + (B : ℚ) / ((S : ℚ) + 1)) : ℤ) : ℚ) = _
    rw [pyInt, if_pos hq]
  · intro fr
    cases fr <;> rfl

/-- C8: on a sorted sequence whose first two keys differ, the selector
returns the first element and leaves the deterministic queue untouched, for
every random draw; when the leading equal-key run is longer than one and a
deterministic queue is supplied, it pops the queue's head and returns the
popped value itself; with a supplied but empty queue at such a tie it fails
fatally. -/
theorem c8_tie_break_selector (key : String → ℚ) (s0 s1 : String)
    (rest : List String) (rnd_gen : Option (List String)) (randIdx : Nat) :
    (key s0 ≠ key s1 →
      randomly_select_first (s0 :: s1 :: rest) key rnd_gen randIdx =
        .ok (s0, rnd_gen)) ∧
    (((s0 :: s1 :: rest).takeWhile (fun c => decide (key c = key s0))).length
        > 1 →
      ∀ (x : String) (q : List String), rnd_gen = some (x :: q) →
        randomly_select_first (s0 :: s1 :: rest) key rnd_gen randIdx =
          .ok (x, some q)) ∧
    (((s0 :: s1 :: rest).takeWhile (fun c => decide (key c = key s0))).length
        > 1 →
      rnd_gen = some [] →
      randomly_select_first (s0 :: s1 :: rest) key rnd_gen randIdx =
        .error .tieBreakExhausted) := by
  refine ⟨?_, ?_, ?_⟩
  · intro hne
    rw [randomly_select_first.eq_def]
    dsimp only []
    have hcol : (s0 :: s1 :: rest).takeWhile
        (fun c => decide (key c = key s0)) = [s0] := by
      rw [List.takeWhile_cons, if_pos (by simp), List.takeWhile_cons,
        if_neg (by simp only [decide_eq_true_eq]; exact fun h => hne h.symm)]
    rw [hcol]
    norm_num
  · intro hlen x q hrg
    subst hrg
    rw [randomly_select_first.eq_def]
    dsimp only []
    rw [if_pos hlen]
  · intro hlen hrg
    subst hrg
    rw [randomly_select_first.eq_def]
    dsimp only []
    rw [if_pos hlen]

/-- C8 witness: with two equal-key candidates and queue B, the selector pops
and returns B with the rest of the queue. -/
theorem c8_tie_break_selector_witness :
    ((["A", "B"] : List String).takeWhile
        (fun c => decide ((fun _ => (0 : ℚ)) c = (fun _ => (0 : ℚ)) "A"))).length
      > 1 ∧
    randomly_select_first ["A", "B"] (fun _ => (0 : ℚ)) (some ["B"]) 0 =
      .ok ("B", some []) := by
  refine ⟨by decide!, ?_⟩
  exact (c8_tie_break_selector (fun _ => (0 : ℚ)) "A" "B" [] (some ["B"])
    0).2.1 (by decide!) "B" [] rfl

/-- C2: the claim fails on the code: a candidate absent from a nonempty
constituency mapping is not elected without error — `elect_reject` raises
`KeyError` at `constituencies[candidate]` (for any quota limit); only with an
empty mapping does it append to `elected`, return true and leave the
constituency counters unchanged. -/
theorem c2_elect_reject_absent_candidate :
    elect_reject "X" (fun _ => 5) [("A", 0)] 0 1 [] [] (fun _ => 0) =
      .error .keyError ∧
    elect_reject "X" (fun _ => 5) [("A", 0)] 3 1 [] [] (fun _ => 0) =
      .error .keyError ∧
    elect_reject "X" (fun _ => 5) [] 3 1 [] [] (fun _ => 0) =
      .ok (true, [("X", 1, 5)], [], fun _ => 0) :=
  ⟨rfl, rfl, rfl⟩

/-- C10: the claim fails on the code: the weight history is a class-level
list shared by every ballot. Before any weight is applied a ballot reads
history [1.0] and applying 0.5 to one ballot updates that ballot's own
cumulative value, but it also changes the history observed by every other
ballot (and by any freshly constructed ballot) to [0.5, 1.0]; only the
cumulative value is per-instance. -/
theorem c10_shared_weight_stack :
    weightsOf initialBallotClass (mkBallot ["B"]) = [1] ∧
    (add_weight initialBallotClass (mkBallot ["A"]) (1/2)).2.inst_value =
      some (1/2) ∧
    weightsOf (add_weight initialBallotClass (mkBallot ["A"]) (1/2)).1
      (mkBallot ["B"]) = [1/2, 1] ∧
    weightsOf (add_weight initialBallotClass (mkBallot ["A"]) (1/2)).1
      (mkBallot ["B"]) ≠ [1] ∧
    valueOf (mkBallot ["B"]) = 1 := by
  decide!

/-- C1: the claim fails on the code: on 25 ballots (A 10, B 9, C 3, Y 2,
Z 1) with 2 seats, droop threshold 9 and constituency quota 1 over
constituencies A,B,C = 0, Y = 1, Z = 2, the zombie loop's stale
`num_elected` makes it elect every eliminated candidate: the run elects A,
Y and Z — three candidates for two seats. -/
theorem c1_zombie_overfills_seats :
    okElectedNames zombieRun = some ["A", "Y", "Z"] ∧
    okElectedLength zombieRun = some 3 ∧ 2 < 3 := by
  decide!

/-- C3 counterexample: the claim fails on the code: on 16 ballots (A 8,
[B,C] 7, C 1) with 2 seats, droop threshold 6, constituency quota 1 over
constituencies A,B = 0, C = 1, round 2 takes the election path for B with
surplus 1 > 0, rejects B by quota, transfers all of B's ballots to C at
weight 1.0 — leaving `vote_count[B] = 0` — and then divides by zero. -/
theorem c3_zero_division_reachable :
    runError zeroDivRun = some .zeroDivision := by
  decide!

/-- C3 (amended): when the selected candidate is elected rather than
rejected — as whenever no constituency quota applies — and the tie-break
choice is drawn from the tied run (random mode), the denominator of the
surplus weight is the candidate's untouched vote count, equal to
surplus + threshold > 0, so no round can raise the division error; the
unamended claim fails because a quota rejection can zero the denominator. -/
theorem c3_amended_no_zero_division (ctx : Ctx) (s : LoopState)
    (hq : ctx.quota_limit = 0) (hrnd : s.rnd_gen = none)
    (hthr : 0 ≤ ctx.threshold) :
    stvRound ctx s ≠ .error .zeroDivision :=
  stvRound_no_zeroDiv ctx s hq hrnd hthr

/-- C3 (amended) witness: the single-hopeful state under a quota-free
context with threshold 0 cannot divide by zero. -/
theorem c3_amended_no_zero_division_witness :
    oneSeatCtx.quota_limit = 0 ∧ oneHopefulState.rnd_gen = none ∧
    (0 : ℚ) ≤ oneSeatCtx.threshold ∧
    stvRound oneSeatCtx oneHopefulState ≠ .error .zeroDivision :=
  ⟨rfl, rfl, le_refl 0,
    c3_amended_no_zero_division oneSeatCtx oneHopefulState rfl rfl (le_refl 0)⟩

/-- C4: in a round with at least one hopeful, the election path runs if and
only if (fractional mode and surplus > 0) or (non-fractional mode and
surplus ≥ 0) or (hopefuls ≤ seats − elected), with surplus the top hopeful's
count minus the threshold; otherwise the elimination path runs: the worst
hopeful — chosen by the tie-break selector from a list sorted ascending by
vote count (a permutation of the hopefuls) — is removed from the hopefuls,
appended to the eliminated list, and its ballots are redistributed at
weight 1.0. -/
theorem c4_election_path_condition (ctx : Ctx) (s : LoopState)
    (hne : s.hopefuls ≠ []) :
    (electionCondB ctx s
        (s.vote_count ((sortDesc s.vote_count s.hopefuls).headD "") -
          ctx.threshold) = true ↔
      (ctx.fractional = true ∧
        0 < s.vote_count ((sortDesc s.vote_count s.hopefuls).headD "") -
          ctx.threshold) ∨
      (ctx.fractional = false ∧
        0 ≤ s.vote_count ((sortDesc s.vote_count s.hopefuls).headD "") -
          ctx.threshold) ∨
      ((s.hopefuls.length : ℤ) ≤ (ctx.seats : ℤ) - (s.elected.length : ℤ))) ∧
    stvRound ctx s =
      (if electionCondB ctx s
          (s.vote_count ((sortDesc s.vote_count s.hopefuls).headD "") -
            ctx.threshold) = true
       then electionStep ctx s (sortDesc s.vote_count s.hopefuls)
          (s.vote_count ((sortDesc s.vote_count s.hopefuls).headD "") -
            ctx.threshold)
       else eliminationStep ctx s (sortDesc s.vote_count s.hopefuls)) ∧
    (sortDesc s.vote_count s.hopefuls).reverse.Perm s.hopefuls ∧
    (sortDesc s.vote_count s.hopefuls).reverse.Pairwise
      (fun a b => s.vote_count a ≤ s.vote_count b) ∧
    (electionCondB ctx s
        (s.vote_count ((sortDesc s.vote_count s.hopefuls).headD "") -
          ctx.threshold) = false →
      eliminationStep ctx s (sortDesc s.vote_count s.hopefuls) =
        match randomly_select_first
            (sortDesc s.vote_count s.hopefuls).reverse s.vote_count
            s.rnd_gen (ctx.randFn s.randCtr) with
        | .error e => .error e
        | .ok (worst, rnd') =>
          if worst ∈ s.hopefuls then
            .ok (eliminationResult s worst rnd'
              (redistribute_ballots worst 1 (s.hopefuls.erase worst)
                s.allocated s.vote_count))
          else .error .removeError) := by
  refine ⟨?_, ?_, ?_, ?_, ?_⟩
  · simp only [electionCondB, Bool.or_eq_true, Bool.and_eq_true,
      decide_eq_true_eq, Bool.not_eq_true']
    tauto
  · obtain ⟨x, xs, hshape⟩ := List.exists_cons_of_ne_nil hne
    rw [stvRound.eq_def, hshape]
  · exact (List.reverse_perm _).trans (sortDesc_perm _ _)
  · exact List.pairwise_reverse.mpr (sortDesc_sorted s.vote_count s.hopefuls)
  · intro _
    rw [eliminationStep.eq_def]

/-- C4 witness: on the two-hopeful state below threshold, the reversed
descending sort is a permutation of the hopefuls. -/
theorem c4_election_path_condition_witness :
    twoHopefulState.hopefuls ≠ [] ∧
    (sortDesc twoHopefulState.vote_count
      twoHopefulState.hopefuls).reverse.Perm twoHopefulState.hopefuls :=
  ⟨by decide,
    (c4_election_path_condition elimCtx twoHopefulState (by decide)).2.2.1⟩

/-- C5: for every call of the redistribution engine with the redistributed
candidate outside the hopeful set (as at every call site), each ballot of
its bucket with a hopeful preference strictly after its current-preference
index moves to the first such preference: the resulting bucket of the
source keeps exactly the ballots with no such preference (their value
contributions frozen in place), every other candidate's bucket gains, in
order, the updated ballots (preference index set to the found position and
value multiplied by the weight) whose first hopeful next preference is that
candidate, the source's count drops by the transferred mass, and every
other count grows by the mass it receives. -/
theorem c5_redistribute_spec (selected : String) (w : ℚ)
    (hopefuls : List String) (al : String → List MBallot) (vc : String → ℚ)
    (hsel : selected ∉ hopefuls) :
    (∀ (b : MBallot) (i : Nat), transferIdx hopefuls b = some i →
      b.pref < i ∧ i < b.candidates.length ∧
        b.candidates.getD i "" ∈ hopefuls ∧
        ∀ j, b.pref < j → j < i → b.candidates.getD j "" ∉ hopefuls) ∧
    (∀ b : MBallot, transferIdx hopefuls b = none →
      ∀ j, b.pref < j → j < b.candidates.length →
        b.candidates.getD j "" ∉ hopefuls) ∧
    (redistribute_ballots selected w hopefuls al vc).1 selected =
      (al selected).filter (fun b => (transferIdx hopefuls b).isNone) ∧
    (∀ c, c ≠ selected →
      (redistribute_ballots selected w hopefuls al vc).1 c =
        al c ++ (al selected).filterMap (incomingTo hopefuls w c)) ∧
    (redistribute_ballots selected w hopefuls al vc).2 selected =
      vc selected - ((al selected).map (outgoingVal hopefuls w)).sum ∧
    (∀ c, c ≠ selected →
      (redistribute_ballots selected w hopefuls al vc).2 c =
        vc c + ((al selected).map (incomingVal hopefuls w c)).sum) := by
  obtain ⟨f1, f2, f3, f4, f5⟩ :=
    redistFold selected w hopefuls hsel (al selected) al vc []
  have hred : redistribute_ballots selected w hopefuls al vc =
      (updA ((al selected).foldl (redistStep selected w hopefuls)
          (al, vc, [])).1 selected
        ((al selected).foldl (redistStep selected w hopefuls)
          (al, vc, [])).2.2,
       ((al selected).foldl (redistStep selected w hopefuls)
          (al, vc, [])).2.1) := rfl
  refine ⟨?_, ?_, ?_, ?_, ?_, ?_⟩
  · intro b i hscan
    obtain ⟨h1, h2, h3, h4⟩ := scanPref_some hopefuls b.candidates
      (b.pref + 1) i hscan
    exact ⟨by omega, h2, h3, fun j hj1 hj2 => h4 j (by omega) hj2⟩
  · intro b hscan j hj1 hj2
    exact scanPref_none hopefuls b.candidates (b.pref + 1) hscan j
      (by omega) hj2
  · rw [hred]
    show updA _ selected _ selected = _
    rw [updA_self, f1, List.nil_append]
  · intro c hc
    rw [hred]
    show updA _ selected _ c = _
    rw [updA_ne _ _ _ _ hc, f3 c hc]
  · rw [hred]
    exact f4
  · intro c hc
    rw [hred]
    exact f5 c hc

/-- C5 witness: a ballot ranked A then B moves its mass to B at weight
one half. -/
theorem c5_redistribute_spec_witness :
    ("A" : String) ∉ (["B"] : List String) ∧
    (redistribute_ballots "A" (1/2) ["B"] oneBallotAlloc oneBallotVC).2 "B" =
      oneBallotVC "B" +
        ((oneBallotAlloc "A").map (incomingVal ["B"] (1/2) "B")).sum :=
  ⟨by decide,
    (c5_redistribute_spec "A" (1/2) ["B"] oneBallotAlloc oneBallotVC
      (by decide)).2.2.2.2.2 "B" (by decide)⟩

/-- C6: vote mass is conserved: from any successful initial count of the
ballots (each with a nonempty candidate list, else the initial count
fails), the sum of all candidates' vote counts — frozen values included —
equals the ballot count, and every reachable round boundary preserves it
exactly; the zombie phase never changes any vote count. -/
theorem c6_vote_conservation (ctx : Ctx) (ballots : List MBallot)
    (constituencies : List (String × Nat)) (rnd : Option (List String))
    (s0 : LoopState) (hinit : initState ballots constituencies rnd = .ok s0) :
    totalVotes s0 = (ballots.length : ℚ) ∧
    (∀ (n : Nat) (s' : LoopState), iterateRounds ctx n s0 = .ok s' →
      totalVotes s' = (ballots.length : ℚ)) ∧
    (∀ (fuel ne : Nat) (z z' : LoopState), zombieLoop ctx fuel ne z = .ok z' →
      z'.vote_count = z.vote_count) := by
  obtain ⟨hwf, htot, _, _, _⟩ := initState_ok ballots constituencies rnd s0 hinit
  refine ⟨htot, ?_, ?_⟩
  · intro n s' h
    rw [iterate_conservation ctx n s0 s' hwf h, htot]
  · intro fuel ne z z' h
    exact (zombieLoop_ok ctx fuel ne z z' h).1

/-- C6 witness: the one-ballot run starts with total vote mass 1. -/
theorem c6_vote_conservation_witness :
    initState oneBallotList [] none = .ok oneBallotInit ∧
    totalVotes oneBallotInit = ((oneBallotList.length : Nat) : ℚ) := by
  have h : initState oneBallotList [] none = .ok oneBallotInit := rfl
  exact ⟨h, (c6_vote_conservation oneSeatCtx oneBallotList [] none
    oneBallotInit h).1⟩

/-- C9: once a candidate is recorded as elected or eliminated (hence no
longer hopeful), no later round changes its vote-count entry — rounds only
change the counts of the redistributed candidate and of current hopefuls —
and the zombie recount changes no vote count at all, reading exactly the
frozen value into every entry it adds to the elected list. -/
theorem c9_frozen_counts (ctx : Ctx) (s : LoopState)
    (hfrozen : ∀ c : String,
      ((∃ e ∈ s.elected, e.1 = c) ∨ c ∈ s.eliminated) → c ∉ s.hopefuls) :
    (∀ c : String, ((∃ e ∈ s.elected, e.1 = c) ∨ c ∈ s.eliminated) →
      ∀ (n : Nat) (s' : LoopState), iterateRounds ctx n s = .ok s' →
        s'.vote_count c = s.vote_count c) ∧
    (∀ (fuel ne : Nat) (z z' : LoopState), zombieLoop ctx fuel ne z = .ok z' →
      z'.vote_count = z.vote_count ∧
      ∀ en ∈ z'.elected, en ∈ z.elected ∨ en.2.2 = z.vote_count en.1) := by
  refine ⟨?_, fun fuel ne z z' h => zombieLoop_ok ctx fuel ne z z' h⟩
  intro c hc n s' h
  exact iterate_frame ctx n s s' c (hfrozen c hc) h

/-- C9 witness: one round from the mid-count state leaves elected A's
frozen count unchanged. -/
theorem c9_frozen_counts_witness :
    okVote (iterateRounds oneSeatCtx 1 midCountState) "A" =
      some (midCountState.vote_count "A") := by
  have hfrozen : ∀ c : String,
      ((∃ e ∈ midCountState.elected, e.1 = c) ∨
        c ∈ midCountState.eliminated) → c ∉ midCountState.hopefuls := by
    intro c hc
    rcases hc with ⟨e, he, rfl⟩ | hc
    · have he2 : e = ("A", 1, (5 : ℚ)) := by
        simpa [midCountState] using he
      subst he2
      simp [midCountState]
    · have hc2 : c = "C" := by
        simpa [midCountState] using hc
      subst hc2
      simp [midCountState]
  have hproj : okVote (iterateRounds oneSeatCtx 1 midCountState) "A" =
      some 5 := by decide!
  rcases hrun : iterateRounds oneSeatCtx 1 midCountState with e | s1
  · rw [hrun] at hproj
    simp [okVote] at hproj
  · simp only [okVote]
    have hfr := (c9_frozen_counts oneSeatCtx midCountState hfrozen).1 "A"
      (Or.inl ⟨("A", 1, 5), by simp [midCountState], rfl⟩) 1 s1 hrun
    rw [hfr]

end STV
